import Mathlib

/-!
Shallow embedding of the `notify` CLI (src/main.rs) for verifying its
natural-language specification.

The embedding follows the Rust source function by function:
`sanitize_text`, `parse_string_value`, `parse_cli_hint`, `parse_cli_action`,
`parse_yaml_action`, `yaml_value_to_owned_value`, `normalize_choice_id`,
`render_card`, `merge_request`, `load_stdin_body_if_requested`, and the
await coordinator `await_notification_result`.

Modelling conventions:
- Rust machine integers are `Nat` / `Int` (u8/u32/u64 as `Nat`, i32/i64 as
  `Int`) with explicit range checks where the source checks them.
- `zvariant::OwnedValue` is modelled by the inductive `HintValue`; an f64
  value is represented by its source lexeme (the program never computes
  with the float, it only forwards it over the bus).
- `HashMap<String, OwnedValue>` is modelled as an association list with
  unique keys; `hinsert` has the replace-or-append lookup semantics of
  `HashMap::insert` and `hfind` is `HashMap::get`.
- Fallible Rust functions returning `anyhow::Result` become
  `Except String`.
- I/O-backed inputs (stdin contents, parsed YAML document) are passed in
  as explicit values, exactly as `run` passes them to `merge_request`.
-/

namespace Notify

/-- Urgency levels, from the `Urgency` enum in the source. -/
inductive Urgency
  | low
  | normal
  | critical
deriving DecidableEq, Repr

/-- `Urgency::as_hint_value`: Low=0, Normal=1, Critical=2. -/
def Urgency.as_hint_value : Urgency → Nat
  | .low => 0
  | .normal => 1
  | .critical => 2

/-- `sanitize_text`: strips NUL bytes, `value.replace(chr0, "")`. -/
def sanitize_text (value : String) : String :=
  String.mk (value.data.filter (fun c => c ≠ '\x00'))

/-- `str::trim`: drop whitespace from both ends (implemented on the
character list so that it evaluates in the kernel). -/
def strTrim (s : String) : String :=
  String.mk (((s.data.dropWhile Char.isWhitespace).reverse.dropWhile Char.isWhitespace).reverse)

/-- A string is NUL-free. -/
def NoNul (s : String) : Prop := '\x00' ∉ s.data

instance (s : String) : Decidable (NoNul s) := by
  unfold NoNul; infer_instance

/-- Model of `zvariant::OwnedValue` restricted to the variants the program
builds: bool, i64, u64, f64 (kept as its lexeme), u8 (urgency byte),
i32 (progress), and string. -/
inductive HintValue
  | bool (b : Bool)
  | i64 (n : Int)
  | u64 (n : Nat)
  | f64 (lexeme : String)
  | byte (n : Nat)
  | i32 (n : Int)
  | str (s : String)
deriving DecidableEq, Repr

/-- The hints map, modelled as an association list with unique keys. -/
abbrev Hints := List (String × HintValue)

/-- `HashMap::insert`: replace the binding in place if the key is present,
otherwise append it. -/
def hinsert (m : Hints) (k : String) (v : HintValue) : Hints :=
  match m with
  | [] => [(k, v)]
  | (k0, v0) :: rest => if k0 = k then (k, v) :: rest else (k0, v0) :: hinsert rest k v

/-- `HashMap::get` on the association-list model. -/
def hfind (m : Hints) (k : String) : Option HintValue :=
  match m with
  | [] => none
  | (k0, v0) :: rest => if k0 = k then some v0 else hfind rest k

/-- `str::split_once(sep)`: split at the first occurrence of `sep`. -/
def splitOnceChars (sep : Char) : List Char → Option (List Char × List Char)
  | [] => none
  | c :: cs =>
    if c = sep then some ([], cs)
    else (splitOnceChars sep cs).map (fun p => (c :: p.1, p.2))

/-- `str::split_once` lifted to `String`. -/
def splitOnce (s : String) (sep : Char) : Option (String × String) :=
  (splitOnceChars sep s.data).map (fun p => (String.mk p.1, String.mk p.2))

/-- `str::eq_ignore_ascii_case` (ASCII-only lowering on both sides). -/
def eqIgnoreAsciiCase (a b : String) : Bool :=
  a.data.map Char.toLower = b.data.map Char.toLower

/-- Numeric value of a list of ASCII digits. -/
def digitsToNat (ds : List Char) : Nat :=
  ds.foldl (fun acc c => acc * 10 + (c.toNat - '0'.toNat)) 0

/-- `str::parse::<i64>()`: optional sign, one or more ASCII digits, and the
value must fit in the i64 range. -/
def i64FromStr (s : String) : Option Int :=
  let (neg, digits) :=
    match s.data with
    | '+' :: rest => (false, rest)
    | '-' :: rest => (true, rest)
    | l => (false, l)
  if digits ≠ [] ∧ digits.all Char.isDigit then
    let n : Int := digitsToNat digits
    let v : Int := if neg then -n else n
    if -(2 ^ 63) ≤ v ∧ v ≤ 2 ^ 63 - 1 then some v else none
  else none

/-- Exponent suffix of the `f64::from_str` grammar: empty, or
`(e|E) sign? digit+`. -/
def isF64Exp (cs : List Char) : Bool :=
  match cs with
  | [] => true
  | e :: rest =>
    (e = 'e' ∨ e = 'E') ∧
      (let rest2 :=
        match rest with
        | '+' :: r => r
        | '-' :: r => r
        | r => r
      rest2 ≠ [] ∧ rest2.all Char.isDigit)

/-- Mantissa of the `f64::from_str` grammar (sign already removed):
`digit+ (. digit*)? exp?` or `. digit+ exp?`. -/
def isF64Body (cs : List Char) : Bool :=
  let intPart := cs.takeWhile Char.isDigit
  let rest := cs.dropWhile Char.isDigit
  match rest with
  | '.' :: rest2 =>
    let frac := rest2.takeWhile Char.isDigit
    let rest3 := rest2.dropWhile Char.isDigit
    (intPart ≠ [] ∨ frac ≠ []) ∧ isF64Exp rest3
  | _ => intPart ≠ [] ∧ isF64Exp rest

/-- `str::parse::<f64>()` recognizer, following the documented grammar:
optional sign, then case-insensitive inf/infinity/nan or a decimal
mantissa with optional exponent. -/
def isF64String (s : String) : Bool :=
  let cs :=
    match s.data with
    | '+' :: r => r
    | '-' :: r => r
    | r => r
  let lower := cs.map Char.toLower
  lower = "inf".data ∨ lower = "infinity".data ∨ lower = "nan".data ∨ isF64Body cs

/-- `parse_string_value`: the ValueCoercer. Ordered predicate chain:
case-insensitive true/false, then i64, then f64, else sanitized string.
The f64 branch keeps the lexeme (see module header). -/
def parse_string_value (value : String) : HintValue :=
  if eqIgnoreAsciiCase value "true" then .bool true
  else if eqIgnoreAsciiCase value "false" then .bool false
  else
    match i64FromStr value with
    | some n => .i64 n
    | none =>
      if isF64String value then .f64 value
      else .str (sanitize_text value)

/-- `parse_cli_hint`: split `KEY:VALUE` at the first colon, trim the key
(must be non-empty), coerce the trimmed value. -/
def parse_cli_hint (input : String) : Except String (String × HintValue) :=
  match splitOnce input ':' with
  | none => .error ("invalid --hint \x27" ++ input ++ "\x27, expected KEY:VALUE")
  | some (keyRaw, rawValue) =>
    let key := strTrim keyRaw
    if key = "" then .error ("invalid --hint \x27" ++ input ++ "\x27, key cannot be empty")
    else .ok (key, parse_string_value (strTrim rawValue))

/-- `parse_cli_action`: split `ID:LABEL` at the first colon; both sides are
trimmed and sanitized and must be non-empty. -/
def parse_cli_action (input : String) : Except String (String × String) :=
  match splitOnce input ':' with
  | none => .error ("invalid --action \x27" ++ input ++ "\x27, expected ID:LABEL")
  | some (idRaw, labelRaw) =>
    let id := sanitize_text (strTrim idRaw)
    let label := sanitize_text (strTrim labelRaw)
    if id = "" ∨ label = "" then
      .error ("invalid --action \x27" ++ input ++ "\x27, ID and LABEL must be non-empty")
    else .ok (id, label)

/-- Model of `serde_yaml::Number`: i64, u64, or f64 (kept as lexeme). -/
inductive YamlNumber
  | i (n : Int)
  | u (n : Nat)
  | f (lexeme : String)
deriving DecidableEq, Repr

/-- `serde_yaml::Number::as_i64`. -/
def YamlNumber.as_i64 : YamlNumber → Option Int
  | .i n => some n
  | .u n => if (n : Int) ≤ 2 ^ 63 - 1 then some (n : Int) else none
  | .f _ => none

/-- `serde_yaml::Number::as_u64`. -/
def YamlNumber.as_u64 : YamlNumber → Option Nat
  | .i n => if 0 ≤ n then some n.toNat else none
  | .u n => some n
  | .f _ => none

/-- `serde_yaml::Number::as_f64` (the float is kept as its lexeme; in
`yaml_value_to_owned_value` this branch is only reached for `.f`). -/
def YamlNumber.as_f64 : YamlNumber → Option String
  | .i n => some (toString n)
  | .u n => some (toString n)
  | .f s => some s

/-- Model of `serde_yaml::Value` restricted to what a hint can hold:
scalars, null, and `other` standing for sequences/mappings/tagged values. -/
inductive YamlValue
  | bool (b : Bool)
  | number (n : YamlNumber)
  | str (s : String)
  | null
  | other
deriving DecidableEq, Repr

/-- `yaml_value_to_owned_value`: coerce a document hint scalar by type. -/
def yaml_value_to_owned_value : YamlValue → Except String HintValue
  | .bool b => .ok (.bool b)
  | .number v =>
    match v.as_i64 with
    | some i => .ok (.i64 i)
    | none =>
      match v.as_u64 with
      | some u => .ok (.u64 u)
      | none =>
        match v.as_f64 with
        | some f => .ok (.f64 f)
        | none => .error "unsupported numeric hint value"
  | .str v => .ok (.str (sanitize_text v))
  | .null => .ok (.str "")
  | .other => .error "unsupported YAML hint type; only scalar values are allowed"

/-- A document action: either a `"id:label"` string or an explicit
`{id, label}` object (`YamlAction` in the source). -/
inductive YamlAction
  | pair (value : String)
  | object (id : String) (label : String)
deriving DecidableEq, Repr

/-- A card choice: bare label or explicit `{id, label}`
(`YamlCardChoice`). -/
inductive YamlCardChoice
  | label (l : String)
  | object (id : String) (label : String)
deriving DecidableEq, Repr

/-- A card: multiple-choice or permission (`YamlCard`). -/
inductive YamlCard
  | multipleChoice (question : String) (choices : List YamlCardChoice) (allow_other : Bool)
  | permission (question : String) (allow_label : Option String)
deriving DecidableEq, Repr

/-- Result of card rendering (`CardRender`). -/
structure CardRender where
  body_json : String
  actions : List (String × String)
  default_summary : String
deriving DecidableEq, Repr

/-- Rust `char::is_ascii_whitespace`: space, tab, LF, FF, CR. -/
def isAsciiWhitespace (c : Char) : Bool :=
  c = ' ' ∨ c = '\t' ∨ c = '\n' ∨ c = '\x0c' ∨ c = '\r'

/-- The separator class of `normalize_choice_id`: ASCII whitespace,
hyphen, or underscore. -/
def isSepChar (c : Char) : Bool :=
  isAsciiWhitespace c ∨ c = '-' ∨ c = '_'

/-- The character loop of `normalize_choice_id`. The flag records whether
the output built so far ends with an underscore (`ends_with` in the
source; `false` for the empty output). -/
def normChars : List Char → Bool → List Char
  | [], _ => []
  | c :: cs, lastUnd =>
    if c.isAlphanum then c.toLower :: normChars cs false
    else if isSepChar c ∧ ¬lastUnd then '_' :: normChars cs true
    else normChars cs lastUnd

/-- `str::trim_matches(chr)` for underscores: drop them from both ends. -/
def trimUnderscores (l : List Char) : List Char :=
  ((l.dropWhile (fun c => c = '_')).reverse.dropWhile (fun c => c = '_')).reverse

/-- `normalize_choice_id`: derive a choice id from a bare label, falling
back to `choice_<fallback_index>` when the normalization is empty. -/
def normalize_choice_id (label : String) (fallback_index : Nat) : String :=
  let normalized := trimUnderscores (normChars label.data false)
  if normalized = [] then "choice_" ++ toString fallback_index
  else String.mk normalized

/-- Spec-side restatement of the normalization (for the refinement claim
about choice ids): lower-case, keep ASCII alphanumerics, map each
whitespace/hyphen/underscore to an underscore and drop everything else,
then collapse runs of underscores. -/
def specTokenize (c : Char) : Option Char :=
  if c.isAlphanum then some c.toLower
  else if isSepChar c then some '_'
  else none

/-- Collapse consecutive underscores; the flag records whether the
previously kept character was an underscore. -/
def squeezeUnd : List Char → Bool → List Char
  | [], _ => []
  | c :: cs, lastUnd =>
    if c = '_' then
      if lastUnd then squeezeUnd cs true else '_' :: squeezeUnd cs true
    else c :: squeezeUnd cs false

/-- Spec-side choice-id derivation, following the specification text. -/
def specNormalizeChoiceId (label : String) (fallback_index : Nat) : String :=
  let collapsed := trimUnderscores (squeezeUnd (label.data.filterMap specTokenize) false)
  if collapsed = [] then "choice_" ++ toString fallback_index
  else String.mk collapsed

/-- JSON string escaping as `serde_json` performs it: quote and backslash
escaped, the short control escapes, and `\u00XX` (lower-case hex) for the
remaining control characters. -/
def jsonEscapeChar (c : Char) : String :=
  if c = '"' then "\\\""
  else if c = '\\' then "\\\\"
  else if c = '\x08' then "\\b"
  else if c = '\x0c' then "\\f"
  else if c = '\n' then "\\n"
  else if c = '\r' then "\\r"
  else if c = '\t' then "\\t"
  else if c.toNat < 0x20 then
    let hexDigit (n : Nat) : Char := if n < 10 then Char.ofNat ('0'.toNat + n) else Char.ofNat ('a'.toNat + n - 10)
    "\\u00" ++ String.mk [hexDigit (c.toNat / 16), hexDigit (c.toNat % 16)]
  else String.singleton c

/-- A JSON string literal, `serde_json`-style. -/
def jsonString (s : String) : String :=
  "\"" ++ String.join (s.data.map jsonEscapeChar) ++ "\""

/-- `serde_json` rendering of a bool. -/
def jsonBool (b : Bool) : String := if b then "true" else "false"

/-- Serialization of one `CardChoice` object. -/
def jsonChoice (c : String × String) : String :=
  "\x7b\"id\":" ++ jsonString c.1 ++ ",\"label\":" ++ jsonString c.2 ++ "\x7d"

/-- `serde_json::to_string` of the `CardEnvelope` for a multiple-choice
payload: the `xnotid_card` tag, the flattened internal `type` tag, then
the fields in declaration order. -/
def cardBodyMultipleChoice (question : String) (choices : List (String × String)) (allow_other : Bool) : String :=
  "\x7b\"xnotid_card\":\"v1\",\"type\":\"multiple-choice\",\"question\":" ++ jsonString question
    ++ ",\"choices\":[" ++ String.intercalate "," (choices.map jsonChoice) ++ "]"
    ++ ",\"allow_other\":" ++ jsonBool allow_other ++ "\x7d"

/-- `serde_json::to_string` of the `CardEnvelope` for a permission
payload. -/
def cardBodyPermission (question : String) (allow_label : String) : String :=
  "\x7b\"xnotid_card\":\"v1\",\"type\":\"permission\",\"question\":" ++ jsonString question
    ++ ",\"allow_label\":" ++ jsonString allow_label ++ "\x7d"

/-- The per-choice loop of `render_card` for multiple-choice cards.
`index` is the 0-based enumeration index; the fallback passed to
`normalize_choice_id` is `index + 1`. Returns the `(id, label)` pairs. -/
def normalizeChoices : List YamlCardChoice → Nat → Except String (List (String × String))
  | [], _ => .ok []
  | c :: rest, index =>
    let (id, label) :=
      match c with
      | .label l => (normalize_choice_id l (index + 1), l)
      | .object id label => (id, label)
    let id := sanitize_text (strTrim id)
    let label := sanitize_text (strTrim label)
    if id = "" ∨ label = "" then .error "card choices must have non-empty id and label"
    else
      match normalizeChoices rest (index + 1) with
      | .error e => .error e
      | .ok tail => .ok ((id, label) :: tail)

/-- `render_card`: expand a card into body JSON, actions, and a default
summary. -/
def render_card : YamlCard → Except String CardRender
  | .multipleChoice question choices allow_other =>
    if choices = [] then .error "multiple-choice card requires at least one choice"
    else
      match normalizeChoices choices 0 with
      | .error e => .error e
      | .ok pairs =>
        .ok { body_json := cardBodyMultipleChoice (sanitize_text question) pairs allow_other
              actions := pairs
              default_summary := "Question" }
  | .permission question allow_label =>
    let allow_label := sanitize_text (allow_label.getD "Allow")
    .ok { body_json := cardBodyPermission (sanitize_text question) allow_label
          actions := [("allow", allow_label)]
          default_summary := "Permission" }

/-- `parse_yaml_action`: strings go through `parse_cli_action`, explicit
objects are sanitized as-is. -/
def parse_yaml_action : YamlAction → Except String (String × String)
  | .pair value => parse_cli_action value
  | .object id label => .ok (sanitize_text id, sanitize_text label)

/-- The parsed command line (`Cli` in the source). `PathBuf` is modelled
as `String`. Field defaults mirror an invocation with no flags. -/
structure Cli where
  summary : Option String := none
  body : List String := []
  file : Option String := none
  urgency : Option Urgency := none
  icon : Option String := none
  app_name : Option String := none
  category : Option String := none
  hints : List String := []
  actions : List String := []
  progress : Option Nat := none
  expire_time : Option Int := none
  replace_id : Option Nat := none
  print_id : Bool := false
  await_result : Bool := false
deriving DecidableEq, Repr

/-- The parsed YAML document (`YamlPayload`). The hint mapping is an
association list (the source iterates a `HashMap`, whose keys are
unique). Defaults mirror `#[derive(Default)]`. -/
structure YamlPayload where
  summary : Option String := none
  body : Option String := none
  urgency : Option Urgency := none
  icon : Option String := none
  app_name : Option String := none
  category : Option String := none
  hints : List (String × YamlValue) := []
  actions : List YamlAction := []
  progress : Option Nat := none
  timeout : Option Int := none
  expire_time : Option Int := none
  id : Option Nat := none
  replace : Option Nat := none
  print_id : Option Bool := none
  await_result : Option Bool := none
  card : Option YamlCard := none
deriving DecidableEq, Repr

/-- The outbound request (`Request`). -/
structure Request where
  app_name : String
  replaces_id : Nat
  icon : String
  summary : String
  body : String
  actions : List String
  hints : Hints
  expire_timeout : Int
  print_id : Bool
  await_result : Bool
  await_timeout_ms : Option Nat
deriving DecidableEq, Repr

/-- The document-hint loop of `merge_request` (lines 341-344): insert each
document hint after coercing it by type, propagating coercion errors. -/
def mergeDocHints : List (String × YamlValue) → Hints → Except String Hints
  | [], h => .ok h
  | (k, v) :: rest, h =>
    match yaml_value_to_owned_value v with
    | .error e => .error e
    | .ok w => mergeDocHints rest (hinsert h k w)

/-- The document-action loop of `merge_request`: each action contributes
its id then its label. -/
def parseDocActions : List YamlAction → Except String (List String)
  | [] => .ok []
  | a :: rest =>
    match parse_yaml_action a with
    | .error e => .error e
    | .ok (id, label) =>
      match parseDocActions rest with
      | .error e => .error e
      | .ok tail => .ok (id :: label :: tail)

/-- The CLI-action loop of `merge_request`. -/
def parseCliActions : List String → Except String (List String)
  | [] => .ok []
  | a :: rest =>
    match parse_cli_action a with
    | .error e => .error e
    | .ok (id, label) =>
      match parseCliActions rest with
      | .error e => .error e
      | .ok tail => .ok (id :: label :: tail)

/-- The CLI-hint loop of `merge_request` (lines 400-403): parse each
`--hint` token and insert it, later entries overwriting earlier ones. -/
def applyCliHints : List String → Hints → Except String Hints
  | [], h => .ok h
  | raw :: rest, h =>
    match parse_cli_hint raw with
    | .error e => .error e
    | .ok (k, v) => applyCliHints rest (hinsert h k v)

/-- The progress handling of `merge_request` (lines 392-398): out of
[0,100] is a validation error, otherwise an i32 hint under key
`value`. -/
def progressCheck (progress : Option Nat) (h : Hints) : Except String Hints :=
  match progress with
  | some v =>
    if 100 < v then .error "progress must be between 0 and 100"
    else .ok (hinsert h "value" (.i32 (v : Int)))
  | none => .ok h

/-- Flattening of card actions with sanitization, as in lines 416-421. -/
def cardActionsFlatten (ps : List (String × String)) : List String :=
  ps.foldl (fun acc pr => acc ++ [sanitize_text pr.1, sanitize_text pr.2]) []

/-- The card-expansion stage of `merge_request` (lines 405-425): with a
card present, a non-empty composed body is a mutual-exclusion error;
otherwise the body becomes the card JSON, an empty summary adopts the
card default, empty actions adopt the card actions, and the card marker
hints are written. -/
def cardStage (card : Option YamlCard) (summary body : String) (actions : List String)
    (h : Hints) : Except String (String × String × List String × Hints) :=
  match card with
  | none => .ok (summary, body, actions, h)
  | some c =>
    if body ≠ "" then
      .error "cannot combine \x27card\x27 with explicit body input; use one or the other"
    else
      match render_card c with
      | .error e => .error e
      | .ok cr =>
        let body := sanitize_text cr.body_json
        let summary := if summary = "" then cr.default_summary else summary
        let actions := if actions = [] then cardActionsFlatten cr.actions else actions
        let h := hinsert (hinsert h "x-card" (.bool true)) "x-card-version" (.str "v1")
        .ok (summary, body, actions, h)

/-- The urgency and category hint insertions of `merge_request`
(lines 378-390): the urgency byte hint (CLI over document, default
Normal), then the category string hint when either source supplies a
category. -/
def mergedScalarHints (cli : Cli) (p : YamlPayload) (h0 : Hints) : Hints :=
  let urgency := (cli.urgency.or p.urgency).getD .normal
  let h1 := hinsert h0 "urgency" (.byte urgency.as_hint_value)
  match cli.category.or p.category with
  | some c => hinsert h1 "category" (.str (sanitize_text c))
  | none => h1

/-- The CLI body (lines 358-362): `None` when the body list is empty or is
the stdin sentinel `["-"]`, otherwise the words joined with single
spaces. -/
def body_from_cli (cli : Cli) : Option String :=
  if cli.body = [] ∨ cli.body = ["-"] then none
  else some (String.intercalate " " cli.body)

/-- `merge_request`: compose the outbound request from CLI, optional
document, and optional stdin body. -/
def merge_request (cli : Cli) (payload : Option YamlPayload) (stdin_body : Option String) :
    Except String Request :=
  let p := payload.getD {}
  match mergeDocHints p.hints [] with
  | .error e => .error e
  | .ok h0 =>
    match parseDocActions p.actions with
    | .error e => .error e
    | .ok docActs =>
      match parseCliActions cli.actions with
      | .error e => .error e
      | .ok cliActs =>
        let actions := docActs ++ cliActs
        let summary := sanitize_text ((cli.summary.or p.summary).getD "")
        let body := sanitize_text (((stdin_body.or (body_from_cli cli)).or p.body).getD "")
        let app_name := sanitize_text ((cli.app_name.or p.app_name).getD "notify")
        let icon := sanitize_text ((cli.icon.or p.icon).getD "")
        match progressCheck (cli.progress.or p.progress) (mergedScalarHints cli p h0) with
        | .error e => .error e
        | .ok h3 =>
          match applyCliHints cli.hints h3 with
          | .error e => .error e
          | .ok h4 =>
            match cardStage p.card summary body actions h4 with
            | .error e => .error e
            | .ok (summary, body, actions, h5) =>
              let replaces_id := ((cli.replace_id.or p.replace).or p.id).getD 0
              let expire_timeout := ((cli.expire_time.or p.expire_time).or p.timeout).getD (-1)
              let print_id := cli.print_id || p.print_id.getD false
              let await_result := cli.await_result || p.await_result.getD false
              let await_timeout_ms :=
                if await_result ∧ 0 ≤ expire_timeout then some (expire_timeout.toNat + 1000)
                else none
              .ok { app_name := app_name
                    replaces_id := replaces_id
                    icon := icon
                    summary := summary
                    body := body
                    actions := actions
                    hints := h5
                    expire_timeout := expire_timeout
                    print_id := print_id
                    await_result := await_result
                    await_timeout_ms := await_timeout_ms }

/-- `load_stdin_body_if_requested`, with the stdin contents passed in
explicitly: the body is read from stdin exactly when the CLI body list is
the single token `-`. -/
def load_stdin_body_if_requested (cli : Cli) (stdin : String) : Option String :=
  if cli.body = ["-"] then some stdin else none

/-- The early conflict check in `run` (lines 236-238): the stdin-body
sentinel may not be combined with `--file`. -/
def runPrecheck (cli : Cli) : Except String Unit :=
  if cli.file.isSome ∧ cli.body = ["-"] then
    .error "cannot use BODY=\x27-\x27 together with --file"
  else .ok ()

/-- JSON values, modelling `serde_json::Value`. Numbers are kept as their
lexemes; object fields are kept in parse order (the program only carries
the parsed value through to its output, so map ordering is not
observable here). -/
inductive Json
  | null
  | bool (b : Bool)
  | num (lexeme : String)
  | str (s : String)
  | arr (elems : List Json)
  | obj (fields : List (String × Json))
deriving Repr

/-- JSON whitespace. -/
def jsonWs (c : Char) : Bool := c = ' ' ∨ c = '\t' ∨ c = '\n' ∨ c = '\r'

/-- Skip JSON whitespace. -/
def skipWs (cs : List Char) : List Char := cs.dropWhile jsonWs

/-- Value of one hex digit. -/
def hexVal (c : Char) : Option Nat :=
  if '0' ≤ c ∧ c ≤ '9' then some (c.toNat - '0'.toNat)
  else if 'a' ≤ c ∧ c ≤ 'f' then some (c.toNat - 'a'.toNat + 10)
  else if 'A' ≤ c ∧ c ≤ 'F' then some (c.toNat - 'A'.toNat + 10)
  else none

/-- Four hex digits, as in a `\uXXXX` escape. -/
def parseHex4 : List Char → Option (Nat × List Char)
  | a :: b :: c :: d :: rest => do
    let x ← hexVal a
    let y ← hexVal b
    let z ← hexVal c
    let w ← hexVal d
    pure (((x * 16 + y) * 16 + z) * 16 + w, rest)
  | _ => none

/-- Body of a JSON string literal (after the opening quote): raw
characters at and above 0x20, the short escapes, and `\uXXXX` with
surrogate-pair handling errors on lone surrogates, as in `serde_json`. -/
def parseJsonString (fuel : Nat) (cs : List Char) : Option (String × List Char) :=
  match fuel with
  | 0 => none
  | fuel + 1 =>
    match cs with
    | [] => none
    | '"' :: rest => some ("", rest)
    | '\\' :: esc =>
      match esc with
      | 'u' :: rest =>
        match parseHex4 rest with
        | none => none
        | some (n, rest2) =>
          if 0xD800 ≤ n ∧ n ≤ 0xDBFF then
            match rest2 with
            | '\\' :: 'u' :: rest3 =>
              match parseHex4 rest3 with
              | some (m, rest4) =>
                if 0xDC00 ≤ m ∧ m ≤ 0xDFFF then
                  let code := 0x10000 + (n - 0xD800) * 0x400 + (m - 0xDC00)
                  (parseJsonString fuel rest4).map
                    (fun pr => (String.singleton (Char.ofNat code) ++ pr.1, pr.2))
                else none
              | none => none
            | _ => none
          else if 0xDC00 ≤ n ∧ n ≤ 0xDFFF then none
          else
            (parseJsonString fuel rest2).map
              (fun pr => (String.singleton (Char.ofNat n) ++ pr.1, pr.2))
      | c :: rest =>
        let dec : Option Char :=
          if c = '"' then some '"'
          else if c = '\\' then some '\\'
          else if c = '/' then some '/'
          else if c = 'b' then some '\x08'
          else if c = 'f' then some '\x0c'
          else if c = 'n' then some '\n'
          else if c = 'r' then some '\r'
          else if c = 't' then some '\t'
          else none
        match dec with
        | some d => (parseJsonString fuel rest).map (fun pr => (String.singleton d ++ pr.1, pr.2))
        | none => none
      | [] => none
    | c :: rest =>
      if c.toNat < 0x20 then none
      else (parseJsonString fuel rest).map (fun pr => (String.singleton c ++ pr.1, pr.2))

/-- A JSON number per the JSON grammar: optional minus, integer part with
no leading zero, optional fraction, optional exponent. Returns the
lexeme. -/
def parseJsonNumber (cs : List Char) : Option (String × List Char) :=
  let (sign, cs1) :=
    match cs with
    | '-' :: r => ("-", r)
    | r => ("", r)
  let intRes : Option (List Char × List Char) :=
    match cs1 with
    | '0' :: r => some (['0'], r)
    | c :: r =>
      if c.isDigit ∧ c ≠ '0' then some (c :: r.takeWhile Char.isDigit, r.dropWhile Char.isDigit)
      else none
    | [] => none
  match intRes with
  | none => none
  | some (ip, r2) =>
    let fracRes : Option (List Char × List Char) :=
      match r2 with
      | '.' :: r3 =>
        let ds := r3.takeWhile Char.isDigit
        if ds = [] then none else some ('.' :: ds, r3.dropWhile Char.isDigit)
      | _ => some ([], r2)
    match fracRes with
    | none => none
    | some (fp, r4) =>
      let expRes : Option (List Char × List Char) :=
        match r4 with
        | e :: r5 =>
          if e = 'e' ∨ e = 'E' then
            let (sg, r6) :=
              match r5 with
              | '+' :: r => (['+'], r)
              | '-' :: r => (['-'], r)
              | r => ([], r)
            let ds := r6.takeWhile Char.isDigit
            if ds = [] then none else some (e :: (sg ++ ds), r6.dropWhile Char.isDigit)
          else some ([], r4)
        | [] => some ([], r4)
      match expRes with
      | none => none
      | some (ep, r7) => some (sign ++ String.mk (ip ++ fp ++ ep), r7)

mutual

/-- Parse one JSON value. Fuel decreases on every nested call; the entry
point supplies more fuel than any input can consume. -/
def parseJsonValue : Nat → List Char → Option (Json × List Char)
  | 0, _ => none
  | fuel + 1, cs =>
    match skipWs cs with
    | 'n' :: 'u' :: 'l' :: 'l' :: rest => some (.null, rest)
    | 't' :: 'r' :: 'u' :: 'e' :: rest => some (.bool true, rest)
    | 'f' :: 'a' :: 'l' :: 's' :: 'e' :: rest => some (.bool false, rest)
    | '"' :: rest => (parseJsonString (rest.length + 1) rest).map (fun pr => (.str pr.1, pr.2))
    | '[' :: rest =>
      (match skipWs rest with
       | ']' :: rest2 => some (.arr [], rest2)
       | _ => (parseJsonElems fuel rest).map (fun pr => (.arr pr.1, pr.2)))
    | '\x7b' :: rest =>
      (match skipWs rest with
       | '\x7d' :: rest2 => some (.obj [], rest2)
       | _ => (parseJsonMembers fuel rest).map (fun pr => (.obj pr.1, pr.2)))
    | cs2 => (parseJsonNumber cs2).map (fun pr => (.num pr.1, pr.2))

/-- Parse the remaining comma-separated elements of a non-empty array,
up to and including the closing bracket. -/
def parseJsonElems : Nat → List Char → Option (List Json × List Char)
  | 0, _ => none
  | fuel + 1, cs =>
    match parseJsonValue fuel cs with
    | none => none
    | some (v, rest) =>
      match skipWs rest with
      | ',' :: rest2 =>
        (parseJsonElems fuel rest2).map (fun pr => (v :: pr.1, pr.2))
      | ']' :: rest2 => some ([v], rest2)
      | _ => none

/-- Parse the remaining members of a non-empty object, up to and
including the closing brace. -/
def parseJsonMembers : Nat → List Char → Option (List (String × Json) × List Char)
  | 0, _ => none
  | fuel + 1, cs =>
    match skipWs cs with
    | '"' :: rest =>
      match parseJsonString (rest.length + 1) rest with
      | none => none
      | some (k, rest2) =>
        match skipWs rest2 with
        | ':' :: rest3 =>
          match parseJsonValue fuel rest3 with
          | none => none
          | some (v, rest4) =>
            match skipWs rest4 with
            | ',' :: rest5 =>
              (parseJsonMembers fuel rest5).map (fun pr => ((k, v) :: pr.1, pr.2))
            | '\x7d' :: rest5 => some ([(k, v)], rest5)
            | _ => none
        | _ => none
    | _ => none

end

/-- `serde_json::from_str::<serde_json::Value>`: parse a complete JSON
document; only trailing whitespace may remain. -/
def jsonParse (s : String) : Option Json :=
  match parseJsonValue (2 * s.data.length + 4) s.data with
  | some (v, rest) => if skipWs rest = [] then some v else none
  | none => none

/-- One event received from either signal stream
(`ActionInvoked(id, action_key)` or `NotificationClosed(id, reason)`). -/
inductive BusEvent
  | actionInvoked (signal_id : Nat) (action_key : String)
  | notificationClosed (signal_id : Nat) (reason : Nat)
deriving DecidableEq, Repr

/-- The notification identity carried by an event. -/
def eventId : BusEvent → Nat
  | .actionInvoked sid _ => sid
  | .notificationClosed sid _ => sid

/-- The terminal outcome printed by the await coordinator; `id` is
present exactly when `print_id` is set. -/
inductive AwaitOutcome
  | actionData (id : Option Nat) (data : Json)
  | action (id : Option Nat) (key : String)
  | closed (id : Option Nat) (reason : Nat)
deriving Repr

/-- The per-event dispatch of `await_notification_result`: events with a
different identity are ignored; a matching action event carries the
parsed payload when the action key parses as JSON, the raw string
otherwise; a matching close event carries the reason. -/
def handleEvent (id : Nat) (print_id : Bool) : BusEvent → Option AwaitOutcome
  | .actionInvoked sid key =>
    if sid = id then
      some
        (match jsonParse key with
         | some v => .actionData (if print_id then some id else none) v
         | none => .action (if print_id then some id else none) key)
    else none
  | .notificationClosed sid reason =>
    if sid = id then some (.closed (if print_id then some id else none) reason)
    else none

/-- The wait loop of `await_notification_result`, as a function of the
interleaved sequence of events delivered by the two signal streams: the
first matching event produces the single terminal outcome. -/
def await_notification_result (id : Nat) (print_id : Bool) : List BusEvent → Option AwaitOutcome
  | [] => none
  | e :: rest =>
    match handleEvent id print_id e with
    | some out => some out
    | none => await_notification_result id print_id rest

/-- The value contributed for key `k` by the last `--hint` token whose key
is `k` (later tokens overwrite earlier ones in `merge_request`). -/
def lastCliHintValue (raws : List String) (k : String) : Option HintValue :=
  match raws with
  | [] => none
  | raw :: rest =>
    match lastCliHintValue rest k with
    | some v => some v
    | none =>
      match parse_cli_hint raw with
      | .ok (k0, v) => if k0 = k then some v else none
      | .error _ => none

/-! Concrete invocations used to exercise the theorems below. -/

/-- A CLI invocation supplying every scalar field. -/
def cliW1 : Cli :=
  { summary := some "s1", body := ["b1", "b2"], urgency := some .critical, icon := some "i1"
    app_name := some "a1", category := some "c1", progress := some 50
    expire_time := some 2000, replace_id := some 7 }

/-- A document supplying every scalar field. -/
def pW1 : YamlPayload :=
  { summary := some "s2", body := some "b3", urgency := some .low, icon := some "i2"
    app_name := some "a2", category := some "c2", progress := some 60
    timeout := some 1, expire_time := some 2, id := some 8, replace := some 9 }

/-- The request composed from `cliW1` and `pW1`. -/
def reqW1 : Request :=
  { app_name := "a1", replaces_id := 7, icon := "i1", summary := "s1", body := "b1 b2"
    actions := []
    hints := [("urgency", .byte 2), ("category", .str "c1"), ("value", .i32 50)]
    expire_timeout := 2000, print_id := false, await_result := false, await_timeout_ms := none }

/-- A CLI invocation passing `--hint x-card:0`. -/
def cliX2 : Cli := { hints := ["x-card:0"] }

/-- A document supplying an `x-card` hint and a card. -/
def pX2 : YamlPayload :=
  { hints := [("x-card", .bool false)], card := some (.permission "q" none) }

/-- The request composed from `cliX2` and `pX2`: card expansion wrote
`x-card = true` after the CLI hint. -/
def reqX2 : Request :=
  { app_name := "notify", replaces_id := 0, icon := ""
    summary := "Permission"
    body := "\x7b\"xnotid_card\":\"v1\",\"type\":\"permission\",\"question\":\"q\",\"allow_label\":\"Allow\"\x7d"
    actions := ["allow", "Allow"]
    hints := [("x-card", .bool true), ("urgency", .byte 1), ("x-card-version", .str "v1")]
    expire_timeout := -1, print_id := false, await_result := false, await_timeout_ms := none }

/-- A CLI invocation passing `--hint k:v1`. -/
def cliW2 : Cli := { hints := ["k:v1"] }

/-- A document supplying a colliding hint `k`. -/
def pW2 : YamlPayload := { hints := [("k", .str "docval")] }

/-- The request composed from `cliW2` and `pW2`: the CLI hint won. -/
def reqW2 : Request :=
  { app_name := "notify", replaces_id := 0, icon := "", summary := "", body := ""
    actions := [], hints := [("k", .str "v1"), ("urgency", .byte 1)]
    expire_timeout := -1, print_id := false, await_result := false, await_timeout_ms := none }

/-- A CLI invocation with an explicit body. -/
def cliW3 : Cli := { body := ["x"] }

/-- A document with a card. -/
def pW3 : YamlPayload := { card := some (.permission "q" none) }

/-- A CLI invocation with out-of-range progress. -/
def cliW7a : Cli := { progress := some 150 }

/-- A CLI invocation with in-range progress. -/
def cliW7b : Cli := { progress := some 50 }

/-- The request composed from `cliW7b`. -/
def reqW7 : Request :=
  { app_name := "notify", replaces_id := 0, icon := "", summary := "", body := ""
    actions := [], hints := [("urgency", .byte 1), ("value", .i32 50)]
    expire_timeout := -1, print_id := false, await_result := false, await_timeout_ms := none }

/-- A document whose hint mapping has a key containing a NUL byte. -/
def pY8 : YamlPayload := { hints := [("a\x00b", .bool true)] }

/-- The request composed from an empty CLI and `pY8`: the NUL key is
present, unsanitized. -/
def reqY8 : Request :=
  { app_name := "notify", replaces_id := 0, icon := "", summary := "", body := ""
    actions := [], hints := [("a\x00b", .bool true), ("urgency", .byte 1)]
    expire_timeout := -1, print_id := false, await_result := false, await_timeout_ms := none }

/-- A CLI invocation with a summary. -/
def cliW8 : Cli := { summary := some "hi" }

/-- The request composed from `cliW8`. -/
def reqW8 : Request :=
  { app_name := "notify", replaces_id := 0, icon := "", summary := "hi", body := ""
    actions := [], hints := [("urgency", .byte 1)]
    expire_timeout := -1, print_id := false, await_result := false, await_timeout_ms := none }

/-- A CLI invocation with one action. -/
def cliW9 : Cli := { actions := ["e:f"] }

/-- A document with two actions, in both shapes. -/
def pW9 : YamlPayload := { actions := [.object "a" "b", .pair "c:d"] }

/-- The request composed from `cliW9` and `pW9`. -/
def reqW9 : Request :=
  { app_name := "notify", replaces_id := 0, icon := "", summary := "", body := ""
    actions := ["a", "b", "c", "d", "e", "f"], hints := [("urgency", .byte 1)]
    expire_timeout := -1, print_id := false, await_result := false, await_timeout_ms := none }

/-- A CLI invocation with a multi-token body containing a `-` token,
combined with a file. -/
def cliW10 : Cli := { body := ["-", "hi"], file := some "f.yaml" }

/-- A CLI invocation combining the stdin sentinel with `--file`. -/
def cliW10b : Cli := { body := ["-"], file := some "f.yaml" }

section HelperLemmas

/-- Lookup after insert: the inserted key maps to the inserted value, and
other keys are unchanged. -/
theorem hfind_hinsert (m : Hints) (k : String) (v : HintValue) (k' : String) :
    hfind (hinsert m k v) k' = if k = k' then some v else hfind m k' := by
  induction m with
  | nil => simp [hinsert, hfind]
  | cons p rest ih =>
    obtain ⟨k0, v0⟩ := p
    by_cases h0 : k0 = k
    · subst h0
      by_cases h1 : k0 = k'
      · subst h1
        simp [hinsert, hfind]
      · simp [hinsert, hfind, h1]
    · by_cases h1 : k0 = k'
      · subst h1
        have hk : ¬k = k0 := fun hh => h0 hh.symm
        simp [hinsert, hfind, h0, hk]
      · simp [hinsert, hfind, h0, h1, ih]

/-- Membership after insert comes from the inserted pair or the old map. -/
theorem mem_hinsert (m : Hints) (k : String) (v : HintValue) (p : String × HintValue) :
    p ∈ hinsert m k v → p = (k, v) ∨ p ∈ m := by
  induction m with
  | nil => simp [hinsert]
  | cons q rest ih =>
    obtain ⟨k0, v0⟩ := q
    by_cases h0 : k0 = k <;> simp only [hinsert, h0, if_true, if_false, List.mem_cons]
    · rintro (h | h) <;> simp [h]
    · rintro (h | h)
      · simp [h]
      · rcases ih h with h1 | h1 <;> simp [h1]

/-- If no remaining `--hint` token supplies key `k`, the CLI-hint loop
leaves the binding of `k` unchanged. -/
theorem applyCliHints_hfind_of_none (raws : List String) (h h' : Hints) (k : String)
    (hok : applyCliHints raws h = .ok h') (hnone : lastCliHintValue raws k = none) :
    hfind h' k = hfind h k := by
  induction raws generalizing h with
  | nil =>
    simp only [applyCliHints, Except.ok.injEq] at hok
    rw [hok]
  | cons raw rest ih =>
    cases hp : parse_cli_hint raw with
    | error e => simp [applyCliHints, hp] at hok
    | ok q =>
      obtain ⟨k0, v0⟩ := q
      simp only [applyCliHints, hp] at hok
      simp only [lastCliHintValue, hp] at hnone
      cases hrest : lastCliHintValue rest k with
      | some w => simp [hrest] at hnone
      | none =>
        simp only [hrest] at hnone
        have hk0 : ¬k0 = k := by
          intro hkk
          simp [hkk] at hnone
        rw [ih _ hok hrest, hfind_hinsert]
        rw [if_neg hk0]

/-- The binding of `k` after the CLI-hint loop is the value of the last
`--hint` token with key `k`, when there is one. -/
theorem applyCliHints_hfind_of_last (raws : List String) (h h' : Hints) (k : String)
    (v : HintValue) (hok : applyCliHints raws h = .ok h')
    (hlast : lastCliHintValue raws k = some v) : hfind h' k = some v := by
  induction raws generalizing h with
  | nil => simp [lastCliHintValue] at hlast
  | cons raw rest ih =>
    cases hp : parse_cli_hint raw with
    | error e => simp [applyCliHints, hp] at hok
    | ok q =>
      obtain ⟨k0, v0⟩ := q
      simp only [applyCliHints, hp] at hok
      simp only [lastCliHintValue, hp] at hlast
      cases hrest : lastCliHintValue rest k with
      | some w =>
        simp only [hrest, Option.some.injEq] at hlast
        subst hlast
        exact ih _ hok hrest
      | none =>
        simp only [hrest] at hlast
        have hk0 : k0 = k := by
          by_contra hkk
          simp [hkk] at hlast
        subst hk0
        simp at hlast
        subst hlast
        rw [applyCliHints_hfind_of_none rest _ _ _ hok hrest, hfind_hinsert]
        rw [if_pos rfl]

/-- When every `--hint` token parses, the CLI-hint loop succeeds. -/
theorem applyCliHints_ok (raws : List String) (h : Hints)
    (hall : ∀ raw ∈ raws, ∃ q, parse_cli_hint raw = .ok q) :
    ∃ h', applyCliHints raws h = .ok h' := by
  induction raws generalizing h with
  | nil => exact ⟨h, rfl⟩
  | cons raw rest ih =>
    obtain ⟨⟨k, v⟩, hq⟩ := hall raw (by simp)
    obtain ⟨h', hh⟩ := ih (hinsert h k v) (fun r hr => hall r (by simp [hr]))
    exact ⟨h', by simp [applyCliHints, hq, hh]⟩

/-- Each document action contributes exactly an id and a label. -/
theorem parseDocActions_length (l : List YamlAction) (as : List String)
    (hok : parseDocActions l = .ok as) : as.length = 2 * l.length := by
  induction l generalizing as with
  | nil =>
    simp only [parseDocActions, Except.ok.injEq] at hok
    subst hok
    simp
  | cons a rest ih =>
    cases hp : parse_yaml_action a with
    | error e => simp [parseDocActions, hp] at hok
    | ok q =>
      obtain ⟨id, label⟩ := q
      simp only [parseDocActions, hp] at hok
      cases ht : parseDocActions rest with
      | error e => simp [ht] at hok
      | ok tail =>
        simp only [ht, Except.ok.injEq] at hok
        subst hok
        have := ih tail ht
        simp only [List.length_cons]
        omega

/-- Each CLI action contributes exactly an id and a label. -/
theorem parseCliActions_length (l : List String) (as : List String)
    (hok : parseCliActions l = .ok as) : as.length = 2 * l.length := by
  induction l generalizing as with
  | nil =>
    simp only [parseCliActions, Except.ok.injEq] at hok
    subst hok
    simp
  | cons a rest ih =>
    cases hp : parse_cli_action a with
    | error e => simp [parseCliActions, hp] at hok
    | ok q =>
      obtain ⟨id, label⟩ := q
      simp only [parseCliActions, hp] at hok
      cases ht : parseCliActions rest with
      | error e => simp [ht] at hok
      | ok tail =>
        simp only [ht, Except.ok.injEq] at hok
        subst hok
        have := ih tail ht
        simp only [List.length_cons]
        omega

/-- Flattened card actions have twice as many entries as pairs. -/
theorem cardActionsFlatten_length (ps : List (String × String)) :
    (cardActionsFlatten ps).length = 2 * ps.length := by
  have haux : ∀ (l : List (String × String)) (acc : List String),
      (l.foldl (fun acc pr => acc ++ [sanitize_text pr.1, sanitize_text pr.2]) acc).length
        = acc.length + 2 * l.length := by
    intro l
    induction l with
    | nil => simp
    | cons p rest ih =>
      intro acc
      simp [List.foldl, ih]
      ring
  simpa [cardActionsFlatten] using haux ps []

/-- Sanitization produces NUL-free strings. -/
theorem noNul_sanitize (s : String) : NoNul (sanitize_text s) := by
  unfold NoNul sanitize_text
  intro hm
  have hm2 : '\x00' ∈ s.data.filter (fun c => c ≠ '\x00') := hm
  have := List.of_mem_filter hm2
  simp at this

/-- The ValueCoercer only produces NUL-free string values. -/
theorem parse_string_value_san (v s : String) (h : parse_string_value v = .str s) :
    NoNul s := by
  unfold parse_string_value at h
  split at h
  · simp at h
  · split at h
    · simp at h
    · split at h
      · simp at h
      · split at h
        · simp at h
        · simp only [HintValue.str.injEq] at h
          subst h
          exact noNul_sanitize _

/-- A parsed CLI hint only carries NUL-free string values. -/
theorem parse_cli_hint_san (raw k : String) (v : HintValue)
    (h : parse_cli_hint raw = .ok (k, v)) : ∀ s, v = .str s → NoNul s := by
  intro s hs
  subst hs
  cases hsp : splitOnce raw ':' with
  | none => simp [parse_cli_hint, hsp] at h
  | some q =>
    obtain ⟨keyRaw, rawValue⟩ := q
    simp only [parse_cli_hint, hsp] at h
    by_cases hk : strTrim keyRaw = ""
    · simp [hk] at h
    · simp only [hk, if_false, Except.ok.injEq, Prod.mk.injEq] at h
      exact parse_string_value_san _ _ h.2

/-- Document hint coercion only produces NUL-free string values. -/
theorem yaml_owned_san (y : YamlValue) (v : HintValue)
    (h : yaml_value_to_owned_value y = .ok v) : ∀ s, v = .str s → NoNul s := by
  intro s hs
  subst hs
  cases y with
  | bool b => simp [yaml_value_to_owned_value] at h
  | number n =>
    cases n with
    | i m => simp [yaml_value_to_owned_value, YamlNumber.as_i64] at h
    | u m =>
      by_cases hm : m ≤ 9223372036854775807 <;>
        simp [yaml_value_to_owned_value, YamlNumber.as_i64, YamlNumber.as_u64, hm] at h
    | f lex =>
      simp [yaml_value_to_owned_value, YamlNumber.as_i64, YamlNumber.as_u64,
        YamlNumber.as_f64] at h
  | str t =>
    simp only [yaml_value_to_owned_value, Except.ok.injEq, HintValue.str.injEq] at h
    rw [← h]
    exact noNul_sanitize _
  | null =>
    simp only [yaml_value_to_owned_value, Except.ok.injEq, HintValue.str.injEq] at h
    rw [← h]
    decide
  | other => simp [yaml_value_to_owned_value] at h

/-- Inserting a value with NUL-free string content preserves the
sanitization invariant of a hints map. -/
theorem hints_san_insert (h : Hints) (k0 : String) (w : HintValue)
    (hsan : ∀ k v, hfind h k = some v → ∀ s, v = .str s → NoNul s)
    (hw : ∀ s, w = .str s → NoNul s) :
    ∀ k v, hfind (hinsert h k0 w) k = some v → ∀ s, v = .str s → NoNul s := by
  intro k v hf s hs
  rw [hfind_hinsert] at hf
  by_cases hk : k0 = k
  · rw [if_pos hk] at hf
    simp only [Option.some.injEq] at hf
    subst hf
    exact hw s hs
  · rw [if_neg hk] at hf
    exact hsan k v hf s hs

/-- The document-hint loop preserves the sanitization invariant. -/
theorem mergeDocHints_san (l : List (String × YamlValue)) (h h' : Hints)
    (hok : mergeDocHints l h = .ok h')
    (hsan : ∀ k v, hfind h k = some v → ∀ s, v = .str s → NoNul s) :
    ∀ k v, hfind h' k = some v → ∀ s, v = .str s → NoNul s := by
  induction l generalizing h with
  | nil =>
    simp only [mergeDocHints, Except.ok.injEq] at hok
    subst hok
    exact hsan
  | cons p rest ih =>
    obtain ⟨k0, y⟩ := p
    cases hy : yaml_value_to_owned_value y with
    | error e => simp [mergeDocHints, hy] at hok
    | ok w =>
      simp only [mergeDocHints, hy] at hok
      exact ih _ hok (hints_san_insert _ _ _ hsan (yaml_owned_san y w hy))

/-- The CLI-hint loop preserves the sanitization invariant. -/
theorem applyCliHints_san (raws : List String) (h h' : Hints)
    (hok : applyCliHints raws h = .ok h')
    (hsan : ∀ k v, hfind h k = some v → ∀ s, v = .str s → NoNul s) :
    ∀ k v, hfind h' k = some v → ∀ s, v = .str s → NoNul s := by
  induction raws generalizing h with
  | nil =>
    simp only [applyCliHints, Except.ok.injEq] at hok
    subst hok
    exact hsan
  | cons raw rest ih =>
    cases hp : parse_cli_hint raw with
    | error e => simp [applyCliHints, hp] at hok
    | ok q =>
      obtain ⟨k0, v0⟩ := q
      simp only [applyCliHints, hp] at hok
      exact ih _ hok (hints_san_insert _ _ _ hsan (parse_cli_hint_san raw k0 v0 hp))

/-- A parsed CLI action is NUL-free. -/
theorem parse_cli_action_san (input id label : String)
    (h : parse_cli_action input = .ok (id, label)) : NoNul id ∧ NoNul label := by
  cases hsp : splitOnce input ':' with
  | none => simp [parse_cli_action, hsp] at h
  | some q =>
    obtain ⟨idRaw, labelRaw⟩ := q
    simp only [parse_cli_action, hsp] at h
    by_cases he : sanitize_text (strTrim idRaw) = "" ∨ sanitize_text (strTrim labelRaw) = ""
    · simp [he] at h
    · simp only [he, if_false, Except.ok.injEq, Prod.mk.injEq] at h
      exact ⟨h.1 ▸ noNul_sanitize _, h.2 ▸ noNul_sanitize _⟩

/-- A parsed document action is NUL-free. -/
theorem parse_yaml_action_san (a : YamlAction) (id label : String)
    (h : parse_yaml_action a = .ok (id, label)) : NoNul id ∧ NoNul label := by
  cases a with
  | pair v => exact parse_cli_action_san v id label h
  | object i l =>
    simp only [parse_yaml_action, Except.ok.injEq, Prod.mk.injEq] at h
    exact ⟨h.1 ▸ noNul_sanitize _, h.2 ▸ noNul_sanitize _⟩

/-- All entries produced by the document-action loop are NUL-free. -/
theorem parseDocActions_san (l : List YamlAction) (as : List String)
    (hok : parseDocActions l = .ok as) : ∀ a ∈ as, NoNul a := by
  induction l generalizing as with
  | nil =>
    simp only [parseDocActions, Except.ok.injEq] at hok
    subst hok
    simp
  | cons a rest ih =>
    cases hp : parse_yaml_action a with
    | error e => simp [parseDocActions, hp] at hok
    | ok q =>
      obtain ⟨id, label⟩ := q
      simp only [parseDocActions, hp] at hok
      cases ht : parseDocActions rest with
      | error e => simp [ht] at hok
      | ok tail =>
        simp only [ht, Except.ok.injEq] at hok
        subst hok
        intro x hx
        simp only [List.mem_cons] at hx
        rcases hx with hx | hx | hx
        · exact hx ▸ (parse_yaml_action_san a id label hp).1
        · exact hx ▸ (parse_yaml_action_san a id label hp).2
        · exact ih tail ht x hx

/-- All entries produced by the CLI-action loop are NUL-free. -/
theorem parseCliActions_san (l : List String) (as : List String)
    (hok : parseCliActions l = .ok as) : ∀ a ∈ as, NoNul a := by
  induction l generalizing as with
  | nil =>
    simp only [parseCliActions, Except.ok.injEq] at hok
    subst hok
    simp
  | cons a rest ih =>
    cases hp : parse_cli_action a with
    | error e => simp [parseCliActions, hp] at hok
    | ok q =>
      obtain ⟨id, label⟩ := q
      simp only [parseCliActions, hp] at hok
      cases ht : parseCliActions rest with
      | error e => simp [ht] at hok
      | ok tail =>
        simp only [ht, Except.ok.injEq] at hok
        subst hok
        intro x hx
        simp only [List.mem_cons] at hx
        rcases hx with hx | hx | hx
        · exact hx ▸ (parse_cli_action_san a id label hp).1
        · exact hx ▸ (parse_cli_action_san a id label hp).2
        · exact ih tail ht x hx

/-- All flattened card actions are NUL-free. -/
theorem cardActionsFlatten_san (ps : List (String × String)) :
    ∀ a ∈ cardActionsFlatten ps, NoNul a := by
  have haux : ∀ (l : List (String × String)) (acc : List String), (∀ a ∈ acc, NoNul a) →
      ∀ a ∈ l.foldl (fun acc pr => acc ++ [sanitize_text pr.1, sanitize_text pr.2]) acc,
        NoNul a := by
    intro l
    induction l with
    | nil => intro acc hacc; simpa using hacc
    | cons p rest ih =>
      intro acc hacc
      refine ih _ ?_
      intro a ha
      rcases List.mem_append.mp ha with ha | ha
      · exact hacc a ha
      · simp only [List.mem_cons, List.not_mem_nil, or_false] at ha
        rcases ha with ha | ha
        · exact ha ▸ noNul_sanitize _
        · exact ha ▸ noNul_sanitize _
  exact haux ps [] (by simp)

/-- The default summary produced by card rendering is NUL-free. -/
theorem render_card_summary_san (c : YamlCard) (cr : CardRender)
    (h : render_card c = .ok cr) : NoNul cr.default_summary := by
  cases c with
  | multipleChoice q choices ao =>
    simp only [render_card] at h
    split at h
    · simp at h
    · split at h
      · simp at h
      · simp only [Except.ok.injEq] at h
        rw [← h]
        show NoNul "Question"
        decide
  | permission q al =>
    simp only [render_card, Except.ok.injEq] at h
    rw [← h]
    show NoNul "Permission"
    decide

/-- A lower-cased alphanumeric character is never an underscore. -/
theorem toLower_ne_underscore (c : Char) (h : c.isAlphanum = true) : c.toLower ≠ '_' := by
  intro hc
  unfold Char.toLower at hc
  simp only [] at hc
  by_cases hu : c.toNat ≥ 65 ∧ c.toNat ≤ 90
  · rw [if_pos hu] at hc
    have hval : (c.toNat + 32).isValidChar := Or.inl (by omega)
    rw [Char.ofNat, dif_pos hval] at hc
    have h2 := congrArg Char.toNat hc
    simp only [Char.ofNatAux, Char.toNat, UInt32.toNat, BitVec.toNat_ofNat,
      BitVec.toNat_ofNatLt] at h2
    have h95 : '_'.val.toBitVec.toNat = 95 := rfl
    rw [h95] at h2
    obtain ⟨hge, hle⟩ := hu
    unfold Char.toNat UInt32.toNat at hge hle
    omega
  · rw [if_neg hu] at hc
    rw [hc] at h
    exact absurd h (by decide)

/-- The stateful normalization loop of `normalize_choice_id` equals the
specification-style pipeline: tokenize (lower-case alphanumerics, map
separators to underscores, drop the rest) then collapse underscore
runs. -/
theorem normChars_eq_squeeze (cs : List Char) (b : Bool) :
    normChars cs b = squeezeUnd (cs.filterMap specTokenize) b := by
  induction cs generalizing b with
  | nil => simp [normChars, squeezeUnd]
  | cons c cs ih =>
    by_cases h1 : c.isAlphanum
    · simp [normChars, specTokenize, h1, squeezeUnd, toLower_ne_underscore c h1, ih]
    · by_cases h2 : isSepChar c
      · cases b with
        | false => simp [normChars, specTokenize, h1, h2, squeezeUnd, ih]
        | true => simp [normChars, specTokenize, h1, h2, squeezeUnd, ih]
      · simp [normChars, specTokenize, h1, h2, ih]

/-- Inversion of a successful `merge_request`: every fallible stage
succeeded, and the resulting request's fields are exactly the staged
values. -/
theorem merge_request_ok_inversion (cli : Cli) (p : YamlPayload) (sb : Option String)
    (req : Request) (hm : merge_request cli (some p) sb = .ok req) :
    ∃ h0 da ca h3 h4 out,
      mergeDocHints p.hints [] = .ok h0 ∧
      parseDocActions p.actions = .ok da ∧
      parseCliActions cli.actions = .ok ca ∧
      progressCheck (cli.progress.or p.progress) (mergedScalarHints cli p h0) = .ok h3 ∧
      applyCliHints cli.hints h3 = .ok h4 ∧
      cardStage p.card (sanitize_text ((cli.summary.or p.summary).getD ""))
        (sanitize_text (((sb.or (body_from_cli cli)).or p.body).getD ""))
        (da ++ ca) h4 = .ok out ∧
      req.app_name = sanitize_text ((cli.app_name.or p.app_name).getD "notify") ∧
      req.replaces_id = ((cli.replace_id.or p.replace).or p.id).getD 0 ∧
      req.icon = sanitize_text ((cli.icon.or p.icon).getD "") ∧
      req.summary = out.1 ∧
      req.body = out.2.1 ∧
      req.actions = out.2.2.1 ∧
      req.hints = out.2.2.2 ∧
      req.expire_timeout = ((cli.expire_time.or p.expire_time).or p.timeout).getD (-1) ∧
      req.print_id = (cli.print_id || p.print_id.getD false) ∧
      req.await_result = (cli.await_result || p.await_result.getD false) ∧
      req.await_timeout_ms =
        (if req.await_result ∧ 0 ≤ req.expire_timeout then some (req.expire_timeout.toNat + 1000)
         else none) := by
  simp only [merge_request, Option.getD_some] at hm
  cases hd : mergeDocHints p.hints [] with
  | error e => simp [hd] at hm
  | ok h0 =>
  simp only [hd] at hm
  cases hda : parseDocActions p.actions with
  | error e => simp [hda] at hm
  | ok da =>
  simp only [hda] at hm
  cases hca : parseCliActions cli.actions with
  | error e => simp [hca] at hm
  | ok ca =>
  simp only [hca] at hm
  cases hpc : progressCheck (cli.progress.or p.progress) (mergedScalarHints cli p h0) with
  | error e => simp [hpc] at hm
  | ok h3 =>
  simp only [hpc] at hm
  cases hch : applyCliHints cli.hints h3 with
  | error e => simp [hch] at hm
  | ok h4 =>
  simp only [hch] at hm
  cases hcs : cardStage p.card (sanitize_text ((cli.summary.or p.summary).getD ""))
      (sanitize_text (((sb.or (body_from_cli cli)).or p.body).getD ""))
      (da ++ ca) h4 with
  | error e => simp [hcs] at hm
  | ok out =>
  simp only [hcs] at hm
  obtain ⟨s2, b2, a2, h5⟩ := out
  simp only [Except.ok.injEq] at hm
  subst hm
  exact ⟨h0, da, ca, h3, h4, (s2, b2, a2, h5), rfl, rfl, rfl, hpc, hch, hcs,
    rfl, rfl, rfl, rfl, rfl, rfl, rfl, rfl, rfl, rfl, rfl⟩

/-- Without a card, the card stage passes everything through. -/
theorem cardStage_none (s b : String) (a : List String) (h : Hints) :
    cardStage none s b a h = .ok (s, b, a, h) := rfl

/-- Inversion of a successful card stage with a card present: the
composed body was empty, the card rendered, and the outputs are the
rendered body, the summary/actions overridden only when empty, and the
card marker hints written last. -/
theorem cardStage_ok_some (c : YamlCard) (s b : String) (a : List String) (h : Hints)
    (out : String × String × List String × Hints)
    (hok : cardStage (some c) s b a h = .ok out) :
    b = "" ∧ ∃ cr, render_card c = .ok cr ∧
      out = (if s = "" then cr.default_summary else s, sanitize_text cr.body_json,
             if a = [] then cardActionsFlatten cr.actions else a,
             hinsert (hinsert h "x-card" (.bool true)) "x-card-version" (.str "v1")) := by
  simp only [cardStage] at hok
  by_cases hb : b = ""
  · refine ⟨hb, ?_⟩
    rw [if_neg (by simp [hb])] at hok
    cases hr : render_card c with
    | error e => simp [hr] at hok
    | ok cr =>
      simp only [hr, Except.ok.injEq] at hok
      exact ⟨cr, rfl, hok.symm⟩
  · rw [if_pos hb] at hok
    exact absurd hok (by simp)

/-- The card stage does not touch hint keys other than the card
markers. -/
theorem cardStage_hfind_preserved (card : Option YamlCard) (s b : String) (a : List String)
    (h : Hints) (out : String × String × List String × Hints) (k : String)
    (hok : cardStage card s b a h = .ok out)
    (hk : card = none ∨ (k ≠ "x-card" ∧ k ≠ "x-card-version")) :
    hfind out.2.2.2 k = hfind h k := by
  cases card with
  | none =>
    rw [cardStage_none] at hok
    simp only [Except.ok.injEq] at hok
    subst hok
    rfl
  | some c =>
    rcases hk with hk | ⟨hk1, hk2⟩
    · exact absurd hk (by simp)
    · obtain ⟨hb, cr, hr, hout⟩ := cardStage_ok_some c s b a h out hok
      subst hout
      simp only []
      rw [hfind_hinsert, if_neg (Ne.symm hk2), hfind_hinsert, if_neg (Ne.symm hk1)]

/-- The urgency/category stage preserves the hint sanitization
invariant. -/
theorem mergedScalarHints_san (cli : Cli) (p : YamlPayload) (h0 : Hints)
    (hsan : ∀ k v, hfind h0 k = some v → ∀ s, v = .str s → NoNul s) :
    ∀ k v, hfind (mergedScalarHints cli p h0) k = some v → ∀ s, v = .str s → NoNul s := by
  unfold mergedScalarHints
  cases hcc : cli.category.or p.category with
  | none =>
    exact hints_san_insert _ _ _ hsan (fun s hs => absurd hs (by simp))
  | some c =>
    refine hints_san_insert _ _ _
      (hints_san_insert _ _ _ hsan (fun s hs => absurd hs (by simp))) ?_
    intro s hs
    injection hs with hs
    exact hs ▸ noNul_sanitize c

/-- The progress stage preserves the hint sanitization invariant. -/
theorem progressCheck_san (prog : Option Nat) (h h' : Hints)
    (hok : progressCheck prog h = .ok h')
    (hsan : ∀ k v, hfind h k = some v → ∀ s, v = .str s → NoNul s) :
    ∀ k v, hfind h' k = some v → ∀ s, v = .str s → NoNul s := by
  cases prog with
  | none =>
    simp only [progressCheck, Except.ok.injEq] at hok
    subst hok
    exact hsan
  | some v =>
    simp only [progressCheck] at hok
    by_cases hv : 100 < v
    · rw [if_pos hv] at hok
      exact absurd hok (by simp)
    · rw [if_neg hv] at hok
      simp only [Except.ok.injEq] at hok
      subst hok
      exact hints_san_insert _ _ _ hsan (fun s hs => absurd hs (by simp))

/-- A non-matching event is ignored by the dispatch. -/
theorem handleEvent_ne (id : Nat) (p : Bool) (ev : BusEvent) (h : eventId ev ≠ id) :
    handleEvent id p ev = none := by
  cases ev with
  | actionInvoked sid key =>
    simp only [eventId] at h
    simp [handleEvent, h]
  | notificationClosed sid reason =>
    simp only [eventId] at h
    simp [handleEvent, h]

end HelperLemmas

/-- C5: the ValueCoercer is the ordered predicate chain bool → i64 → f64 →
sanitized string, first match wins: case-insensitive true/false become
booleans, i64-parsable strings become integers, f64-parsable strings
(including exponent forms and i64-overflowing digit strings) become
floats, and everything else stays a string. -/
theorem c5_value_coercer :
    parse_string_value "true" = .bool true ∧
    parse_string_value "TRUE" = .bool true ∧
    parse_string_value "False" = .bool false ∧
    parse_string_value "42" = .i64 42 ∧
    parse_string_value "-7" = .i64 (-7) ∧
    parse_string_value "3.14" = .f64 "3.14" ∧
    parse_string_value "1e3" = .f64 "1e3" ∧
    parse_string_value "hello" = .str "hello" ∧
    parse_string_value "9223372036854775808" = .f64 "9223372036854775808" := by
  refine ⟨rfl, rfl, rfl, ?_, ?_, rfl, rfl, rfl, ?_⟩ <;> decide

/-- C6: a bare choice label is normalized by lower-casing, keeping ASCII
alphanumerics, mapping separator runs (whitespace, hyphen, underscore) to
single underscores and trimming them from the ends, with fallback
`choice_<1-based-index>`; in particular "Yes, please!" gives yes_please
and an all-punctuation label gives the fallback. -/
theorem c6_choice_id_normalization :
    (∀ (label : String) (idx : Nat),
      normalize_choice_id label idx = specNormalizeChoiceId label idx) ∧
    normalize_choice_id "Yes, please!" 1 = "yes_please" ∧
    normalize_choice_id "???" 3 = "choice_3" ∧
    (render_card (.multipleChoice "Pick" [.label "???", .label "Yes, please!"] false)).toOption.map
      CardRender.actions = some [("choice_1", "???"), ("yes_please", "Yes, please!")] := by
  refine ⟨?_, rfl, rfl, by decide⟩
  intro label idx
  unfold normalize_choice_id specNormalizeChoiceId
  rw [normChars_eq_squeeze]

/-- Witness for C6 at a further concrete label. -/
theorem c6_witness :
    normalize_choice_id "Mixed-Case  --  Label" 2 =
      specNormalizeChoiceId "Mixed-Case  --  Label" 2 :=
  c6_choice_id_normalization.1 "Mixed-Case  --  Label" 2

/-- C10: the stdin-body sentinel is recognized exactly when the CLI body
list is the single token `-`; combining it with `--file` is rejected; a
body of two or more tokens reads nothing from stdin and is joined with
single spaces (any `-` token staying literal text). -/
theorem c10_stdin_sentinel (cli : Cli) (stdin : String) :
    (load_stdin_body_if_requested cli stdin = some stdin ↔ cli.body = ["-"]) ∧
    (cli.file.isSome → cli.body = ["-"] →
      runPrecheck cli = .error "cannot use BODY=\x27-\x27 together with --file") ∧
    (2 ≤ cli.body.length →
      load_stdin_body_if_requested cli stdin = none ∧
      body_from_cli cli = some (String.intercalate " " cli.body)) := by
  refine ⟨?_, ?_, ?_⟩
  · by_cases hb : cli.body = ["-"]
    · simp [load_stdin_body_if_requested, hb]
    · simp [load_stdin_body_if_requested, hb]
  · intro hf hb
    simp [runPrecheck, hf, hb]
  · intro hlen
    have hne : cli.body ≠ ["-"] := by
      intro h
      rw [h] at hlen
      simp at hlen
    have hne2 : cli.body ≠ [] := by
      intro h
      rw [h] at hlen
      simp at hlen
    constructor
    · simp [load_stdin_body_if_requested, hne]
    · simp [body_from_cli, hne, hne2]

/-- Witness for C10 at a concrete invocation: a two-token body containing
`-` reads nothing from stdin and joins literally, and the sentinel with
`--file` is rejected. -/
theorem c10_witness :
    (load_stdin_body_if_requested cliW10 "S" = none ∧
      body_from_cli cliW10 = some "- hi") ∧
    runPrecheck cliW10b = .error "cannot use BODY=\x27-\x27 together with --file" := by
  constructor
  · exact (c10_stdin_sentinel cliW10 "S").2.2 (by decide)
  · exact (c10_stdin_sentinel cliW10b "S").2.1 (by decide) (by decide)

/-- C4: the await coordinator discards every event whose identity differs
from the awaited id and keeps waiting; the first matching action-invoked
event yields an Action outcome carrying the parsed payload when the
action key parses as JSON and the raw string otherwise; the first
matching closed event yields a Closed outcome with the reason; the
outcome is unique and independent of later events. -/
theorem c4_await_coordinator (id : Nat) (p : Bool) (pre rest : List BusEvent)
    (hpre : ∀ ev ∈ pre, eventId ev ≠ id) :
    (await_notification_result id p (pre ++ rest) = await_notification_result id p rest) ∧
    (∀ key, await_notification_result id p (pre ++ BusEvent.actionInvoked id key :: rest) =
      some (match jsonParse key with
        | some v => AwaitOutcome.actionData (if p then some id else none) v
        | none => AwaitOutcome.action (if p then some id else none) key)) ∧
    (∀ reason,
      await_notification_result id p (pre ++ BusEvent.notificationClosed id reason :: rest) =
        some (AwaitOutcome.closed (if p then some id else none) reason)) := by
  induction pre with
  | nil =>
    refine ⟨rfl, ?_, ?_⟩
    · intro key
      simp [await_notification_result, handleEvent]
    · intro reason
      simp [await_notification_result, handleEvent]
  | cons e pre ih =>
    have he : handleEvent id p e = none := handleEvent_ne id p e (hpre e (by simp))
    have ihh := ih (fun ev hev => hpre ev (by simp [hev]))
    refine ⟨?_, ?_, ?_⟩
    · rw [List.cons_append]
      simp only [await_notification_result, he]
      exact ihh.1
    · intro key
      rw [List.cons_append]
      simp only [await_notification_result, he]
      exact ihh.2.1 key
    · intro reason
      rw [List.cons_append]
      simp only [await_notification_result, he]
      exact ihh.2.2 reason

/-- Witness for C4: non-matching events (one per stream) are skipped; a
matching action key that parses as JSON is delivered parsed, and a
matching close event delivers its reason. -/
theorem c4_witness :
    await_notification_result 5 false
      [BusEvent.actionInvoked 7 "x", BusEvent.notificationClosed 9 2,
        BusEvent.actionInvoked 5 "\x7b\"a\":1\x7d"] =
      some (AwaitOutcome.actionData none (Json.obj [("a", Json.num "1")])) ∧
    await_notification_result 5 true
      [BusEvent.actionInvoked 7 "x", BusEvent.notificationClosed 5 2] =
      some (AwaitOutcome.closed (some 5) 2) := by
  constructor
  · have h := (c4_await_coordinator 5 false
      [BusEvent.actionInvoked 7 "x", BusEvent.notificationClosed 9 2] []
      (by decide)).2.1 "\x7b\"a\":1\x7d"
    exact h.trans (by rfl)
  · have h := (c4_await_coordinator 5 true [BusEvent.actionInvoked 7 "x"] []
      (by decide)).2.2 2
    exact h.trans (by rfl)

/-- C1: when both the CLI and the document supply the same scalar field,
the CLI value is the one in the composed request (for the hint-backed
fields urgency/category/progress this holds whenever no `--hint` token
reuses their reserved keys, which would be a later CLI write; with a
document body supplied, a card would be rejected, so the card-free case
is the live one); and replaces_id falls back CLI → document `replace` →
document `id` → 0, while expire_timeout falls back CLI → document
`expire_time` → document `timeout` → -1. -/
theorem c1_cli_precedence (cli : Cli) (p : YamlPayload) (req : Request)
    (s an ic cat : String) (u : Urgency) (prog : Nat)
    (hm : merge_request cli (some p) none = .ok req)
    (hcard : p.card = none)
    (hs : cli.summary = some s) (hps : p.summary.isSome)
    (hbne1 : cli.body ≠ []) (hbne2 : cli.body ≠ ["-"]) (hpb : p.body.isSome)
    (han : cli.app_name = some an) (hpan : p.app_name.isSome)
    (hic : cli.icon = some ic) (hpic : p.icon.isSome)
    (hu : cli.urgency = some u) (hpu : p.urgency.isSome)
    (hcat : cli.category = some cat) (hpcat : p.category.isSome)
    (hprog : cli.progress = some prog) (hpprog : p.progress.isSome)
    (hres1 : lastCliHintValue cli.hints "urgency" = none)
    (hres2 : lastCliHintValue cli.hints "category" = none)
    (hres3 : lastCliHintValue cli.hints "value" = none) :
    req.summary = sanitize_text s ∧
    req.body = sanitize_text (String.intercalate " " cli.body) ∧
    req.app_name = sanitize_text an ∧
    req.icon = sanitize_text ic ∧
    hfind req.hints "urgency" = some (.byte u.as_hint_value) ∧
    hfind req.hints "category" = some (.str (sanitize_text cat)) ∧
    hfind req.hints "value" = some (.i32 (prog : Int)) ∧
    (∀ r, cli.replace_id = some r → req.replaces_id = r) ∧
    (cli.replace_id = none → ∀ r, p.replace = some r → req.replaces_id = r) ∧
    (cli.replace_id = none → p.replace = none → ∀ r, p.id = some r → req.replaces_id = r) ∧
    (cli.replace_id = none → p.replace = none → p.id = none → req.replaces_id = 0) ∧
    (∀ t, cli.expire_time = some t → req.expire_timeout = t) ∧
    (cli.expire_time = none → ∀ t, p.expire_time = some t → req.expire_timeout = t) ∧
    (cli.expire_time = none → p.expire_time = none → ∀ t, p.timeout = some t →
      req.expire_timeout = t) ∧
    (cli.expire_time = none → p.expire_time = none → p.timeout = none →
      req.expire_timeout = -1) := by
  obtain ⟨h0, da, ca, h3, h4, out, hd, hda, hca, hpc, hch, hcs,
    e1, e2, e3, e4, e5, e6, e7, e8, e9, e10, e11⟩ :=
    merge_request_ok_inversion cli p none req hm
  rw [hcard, cardStage_none] at hcs
  simp only [Except.ok.injEq] at hcs
  subst hcs
  rw [hprog] at hpc
  simp only [Option.or_some, progressCheck] at hpc
  have h100 : ¬100 < prog := by
    intro hgt
    rw [if_pos hgt] at hpc
    exact absurd hpc (by simp)
  rw [if_neg h100] at hpc
  simp only [Except.ok.injEq] at hpc
  subst hpc
  have hint4 : ∀ k, lastCliHintValue cli.hints k = none →
      hfind h4 k = hfind (hinsert (mergedScalarHints cli p h0) "value" (.i32 (prog : Int))) k :=
    fun k hk => applyCliHints_hfind_of_none _ _ _ _ hch hk
  refine ⟨?_, ?_, ?_, ?_, ?_, ?_, ?_, ?_, ?_, ?_, ?_, ?_, ?_, ?_, ?_⟩
  · rw [e4]
    simp [hs]
  · rw [e5]
    simp [body_from_cli, hbne1, hbne2]
  · rw [e1]
    simp [han]
  · rw [e3]
    simp [hic]
  · rw [e7, hint4 _ hres1, hfind_hinsert, if_neg (by decide)]
    simp [mergedScalarHints, hcat, hfind_hinsert, hu]
  · rw [e7, hint4 _ hres2, hfind_hinsert, if_neg (by decide)]
    simp [mergedScalarHints, hcat, hfind_hinsert]
  · rw [e7, hint4 _ hres3, hfind_hinsert, if_pos rfl]
  · intro r hr
    rw [e2]
    simp [hr]
  · intro h1 r h2
    rw [e2]
    simp [h1, h2]
  · intro h1 h2 r h3
    rw [e2]
    simp [h1, h2, h3]
  · intro h1 h2 h3
    rw [e2]
    simp [h1, h2, h3]
  · intro t ht
    rw [e8]
    simp [ht]
  · intro h1 t h2
    rw [e8]
    simp [h1, h2]
  · intro h1 h2 t h3
    rw [e8]
    simp [h1, h2, h3]
  · intro h1 h2 h3
    rw [e8]
    simp [h1, h2, h3]

/-- Witness for C1 at a concrete invocation with every field supplied by
both sources. -/
theorem c1_witness :
    reqW1.summary = sanitize_text "s1" ∧
    reqW1.body = sanitize_text (String.intercalate " " cliW1.body) ∧
    hfind reqW1.hints "urgency" = some (.byte Urgency.critical.as_hint_value) ∧
    hfind reqW1.hints "category" = some (.str (sanitize_text "c1")) ∧
    hfind reqW1.hints "value" = some (.i32 50) ∧
    reqW1.replaces_id = 7 ∧
    reqW1.expire_timeout = 2000 := by
  have h := c1_cli_precedence cliW1 pW1 reqW1 "s1" "a1" "i1" "c1" Urgency.critical 50
    (by rfl) rfl rfl rfl (by decide) (by decide) rfl rfl rfl rfl rfl rfl rfl rfl rfl
    rfl rfl rfl rfl rfl
  exact ⟨h.1, h.2.1, h.2.2.2.2.1, h.2.2.2.2.2.1, h.2.2.2.2.2.2.1,
    h.2.2.2.2.2.2.2.1 7 rfl, h.2.2.2.2.2.2.2.2.2.2.2.1 2000 rfl⟩

/-- C2 as stated is false: with a document card present, the card marker
hints are written after the CLI `--hint` entries, so a CLI `x-card` hint
does not survive; at this concrete input the document and the CLI both
supply key `x-card`, yet the composed value is the card marker
`true`, not the CLI value `0`. -/
theorem c2_counterexample :
    merge_request cliX2 (some pX2) none = .ok reqX2 ∧
    ("x-card", YamlValue.bool false) ∈ pX2.hints ∧
    lastCliHintValue cliX2.hints "x-card" = some (.i64 0) ∧
    hfind reqX2.hints "x-card" = some (.bool true) ∧
    HintValue.bool true ≠ HintValue.i64 0 := by
  exact ⟨by rfl, by decide, by rfl, by rfl, by decide⟩

/-- C2 (amended): hints are applied in the order document mapping, then
category, then progress, then the CLI `--hint` entries, with the card
marker hints (`x-card`, `x-card-version`) written last when a card is
expanded; hence on any key supplied both as a document hint and as a CLI
`--hint`, the CLI-sourced value (the last such entry) wins, unless the
document specifies a card and the key is one of the two card marker
keys. -/
theorem c2_cli_hints_win (cli : Cli) (p : YamlPayload) (req : Request)
    (k : String) (v : HintValue)
    (hm : merge_request cli (some p) none = .ok req)
    (hdoc : k ∈ p.hints.map Prod.fst)
    (hlast : lastCliHintValue cli.hints k = some v)
    (hcard : p.card = none ∨ (k ≠ "x-card" ∧ k ≠ "x-card-version")) :
    hfind req.hints k = some v := by
  obtain ⟨h0, da, ca, h3, h4, out, hd, hda, hca, hpc, hch, hcs,
    e1, e2, e3, e4, e5, e6, e7, e8, e9, e10, e11⟩ :=
    merge_request_ok_inversion cli p none req hm
  rw [e7, cardStage_hfind_preserved _ _ _ _ _ _ k hcs hcard]
  exact applyCliHints_hfind_of_last _ _ _ _ _ hch hlast

/-- Witness for the amended C2: a key supplied by both the document and a
CLI `--hint` ends up with the CLI value. -/
theorem c2_witness : hfind reqW2.hints "k" = some (.str "v1") :=
  c2_cli_hints_win cliW2 pW2 reqW2 "k" (.str "v1") (by rfl) (by decide) (by rfl)
    (Or.inl rfl)

/-- C3: when the document specifies a card and the composed body is
non-empty at the card-expansion point, composition fails — and, when
every earlier stage succeeds, with exactly the mutual-exclusion error —
so no successfully composed request combines a card with a non-empty
explicit body. -/
theorem c3_card_body_exclusive (cli : Cli) (p : YamlPayload) (sb : Option String) (c : YamlCard)
    (hc : p.card = some c)
    (hb : sanitize_text (((sb.or (body_from_cli cli)).or p.body).getD "") ≠ "") :
    (∀ req, merge_request cli (some p) sb ≠ .ok req) ∧
    (∀ h0 da ca h3 h4,
      mergeDocHints p.hints [] = .ok h0 →
      parseDocActions p.actions = .ok da →
      parseCliActions cli.actions = .ok ca →
      progressCheck (cli.progress.or p.progress) (mergedScalarHints cli p h0) = .ok h3 →
      applyCliHints cli.hints h3 = .ok h4 →
      merge_request cli (some p) sb =
        .error "cannot combine \x27card\x27 with explicit body input; use one or the other") := by
  constructor
  · intro req hm
    obtain ⟨h0, da, ca, h3, h4, out, hd, hda, hca, hpc, hch, hcs, _⟩ :=
      merge_request_ok_inversion cli p sb req hm
    rw [hc] at hcs
    obtain ⟨hbz, _, _, _⟩ := cardStage_ok_some _ _ _ _ _ _ hcs
    exact hb hbz
  · intro h0 da ca h3 h4 hd hda hca hpc hch
    simp only [merge_request, Option.getD_some, hd, hda, hca, hpc, hch, hc, cardStage,
      if_pos hb]

/-- Witness for C3: an explicit CLI body together with a document card is
rejected with the mutual-exclusion error. -/
theorem c3_witness :
    merge_request cliW3 (some pW3) none =
      .error "cannot combine \x27card\x27 with explicit body input; use one or the other" :=
  (c3_card_body_exclusive cliW3 pW3 none (.permission "q" none) rfl (by decide)).2
    [] [] [] [("urgency", .byte 1)] [("urgency", .byte 1)] rfl rfl rfl rfl rfl

/-- C7: a progress value outside [0,100] (from either source, CLI taking
precedence) makes composition fail — with the validation error once the
earlier stages succeed — and an in-range progress value is materialized
as an i32 hint under key `value` (when no later CLI `--hint` reuses that
key). -/
theorem c7_progress_validation (cli : Cli) (p : YamlPayload) (sb : Option String) (v : Nat)
    (hp : cli.progress.or p.progress = some v) :
    (100 < v → ∀ req, merge_request cli (some p) sb ≠ .ok req) ∧
    (100 < v → ∀ h0 da ca,
      mergeDocHints p.hints [] = .ok h0 →
      parseDocActions p.actions = .ok da →
      parseCliActions cli.actions = .ok ca →
      merge_request cli (some p) sb = .error "progress must be between 0 and 100") ∧
    (∀ req, merge_request cli (some p) sb = .ok req →
      v ≤ 100 ∧
      (lastCliHintValue cli.hints "value" = none →
        hfind req.hints "value" = some (.i32 (v : Int)))) := by
  refine ⟨?_, ?_, ?_⟩
  · intro hgt req hm
    obtain ⟨h0, da, ca, h3, h4, out, hd, hda, hca, hpc, _⟩ :=
      merge_request_ok_inversion cli p sb req hm
    rw [hp] at hpc
    simp only [progressCheck, if_pos hgt] at hpc
    exact absurd hpc (by simp)
  · intro hgt h0 da ca hd hda hca
    simp only [merge_request, Option.getD_some, hd, hda, hca, hp, progressCheck, if_pos hgt]
  · intro req hm
    obtain ⟨h0, da, ca, h3, h4, out, hd, hda, hca, hpc, hch, hcs,
      e1, e2, e3, e4, e5, e6, e7, e8, e9, e10, e11⟩ :=
      merge_request_ok_inversion cli p sb req hm
    rw [hp] at hpc
    simp only [progressCheck] at hpc
    have h100 : ¬100 < v := by
      intro hgt
      rw [if_pos hgt] at hpc
      exact absurd hpc (by simp)
    rw [if_neg h100] at hpc
    simp only [Except.ok.injEq] at hpc
    subst hpc
    refine ⟨by omega, ?_⟩
    intro hnone
    rw [e7, cardStage_hfind_preserved _ _ _ _ _ _ "value" hcs (Or.inr ⟨by decide, by decide⟩)]
    rw [applyCliHints_hfind_of_none _ _ _ _ hch hnone, hfind_hinsert, if_pos rfl]

/-- Witness for C7: progress 150 is rejected with the validation error,
and progress 50 lands as the i32 hint `value = 50`. -/
theorem c7_witness :
    merge_request cliW7a (some {}) none = .error "progress must be between 0 and 100" ∧
    (50 ≤ 100 ∧ hfind reqW7.hints "value" = some (.i32 50)) := by
  constructor
  · exact (c7_progress_validation cliW7a {} none 150 rfl).2.1 (by decide) [] [] [] rfl rfl rfl
  · have h := (c7_progress_validation cliW7b {} none 50 rfl).2.2 reqW7 (by rfl)
    exact ⟨h.1, h.2 rfl⟩

/-- C8 as stated is false for hint keys: document hint keys are inserted
without sanitization, so a key containing a NUL byte survives into the
composed request. -/
theorem c8_counterexample :
    merge_request {} (some pY8) none = .ok reqY8 ∧
    hfind reqY8.hints "a\x00b" = some (.bool true) ∧
    ¬NoNul "a\x00b" := by
  exact ⟨by rfl, by rfl, by decide⟩

/-- C8 (amended): every string field of a successfully composed request —
summary, body, app_name, icon, each action entry, and every string hint
value — is NUL-stripped; hint keys, however, are not sanitized (document
keys are inserted as-is and CLI keys are only trimmed). -/
theorem c8_strings_sanitized (cli : Cli) (p : YamlPayload) (sb : Option String) (req : Request)
    (hm : merge_request cli (some p) sb = .ok req) :
    NoNul req.summary ∧ NoNul req.body ∧ NoNul req.app_name ∧ NoNul req.icon ∧
    (∀ a ∈ req.actions, NoNul a) ∧
    (∀ k v, hfind req.hints k = some v → ∀ s, v = .str s → NoNul s) := by
  obtain ⟨h0, da, ca, h3, h4, out, hd, hda, hca, hpc, hch, hcs,
    e1, e2, e3, e4, e5, e6, e7, e8, e9, e10, e11⟩ :=
    merge_request_ok_inversion cli p sb req hm
  have hh0 : ∀ k v, hfind h0 k = some v → ∀ s, v = .str s → NoNul s :=
    mergeDocHints_san _ _ _ hd (by intro k v hf; simp [hfind] at hf)
  have hh3 : ∀ k v, hfind h3 k = some v → ∀ s, v = .str s → NoNul s :=
    progressCheck_san _ _ _ hpc (mergedScalarHints_san cli p h0 hh0)
  have hh4 : ∀ k v, hfind h4 k = some v → ∀ s, v = .str s → NoNul s :=
    applyCliHints_san _ _ _ hch hh3
  have hacts : ∀ a ∈ da ++ ca, NoNul a := by
    intro a ha
    rcases List.mem_append.mp ha with ha | ha
    · exact parseDocActions_san _ _ hda a ha
    · exact parseCliActions_san _ _ hca a ha
  cases hcard : p.card with
  | none =>
    rw [hcard, cardStage_none] at hcs
    simp only [Except.ok.injEq] at hcs
    subst hcs
    refine ⟨?_, ?_, ?_, ?_, ?_, ?_⟩
    · rw [e4]; exact noNul_sanitize _
    · rw [e5]; exact noNul_sanitize _
    · rw [e1]; exact noNul_sanitize _
    · rw [e3]; exact noNul_sanitize _
    · rw [e6]; exact hacts
    · rw [e7]; exact hh4
  | some c =>
    rw [hcard] at hcs
    obtain ⟨hbz, cr, hr, hout⟩ := cardStage_ok_some _ _ _ _ _ _ hcs
    subst hout
    refine ⟨?_, ?_, ?_, ?_, ?_, ?_⟩
    · rw [e4]
      by_cases hse : sanitize_text ((cli.summary.or p.summary).getD "") = ""
      · simp only [hse, if_pos rfl]
        exact render_card_summary_san c cr hr
      · simp only [if_neg hse]
        exact noNul_sanitize _
    · rw [e5]; exact noNul_sanitize _
    · rw [e1]; exact noNul_sanitize _
    · rw [e3]; exact noNul_sanitize _
    · rw [e6]
      by_cases hae : da ++ ca = ([] : List String)
      · simp only [hae, if_pos rfl]
        exact cardActionsFlatten_san cr.actions
      · simp only [if_neg hae]
        exact hacts
    · rw [e7]
      refine hints_san_insert _ _ _
        (hints_san_insert _ _ _ hh4 (fun s hs => absurd hs (by simp))) ?_
      intro s hs
      injection hs with hs
      rw [← hs]
      decide

/-- Witness for the amended C8 at a concrete invocation. -/
theorem c8_witness :
    NoNul reqW8.summary ∧ NoNul reqW8.body ∧
    (∀ k v, hfind reqW8.hints k = some v → ∀ s, v = .str s → NoNul s) := by
  have h := c8_strings_sanitized cliW8 {} none reqW8 (by rfl)
  exact ⟨h.1, h.2.1, h.2.2.2.2.2⟩

/-- C9: a successfully composed request has an even-length actions list
consisting of the normalized document actions followed by the CLI action
entries, concatenated without deduplication; card-generated actions are
adopted only when both sources supplied none. -/
theorem c9_actions_shape (cli : Cli) (p : YamlPayload) (sb : Option String) (req : Request)
    (da ca : List String)
    (hm : merge_request cli (some p) sb = .ok req)
    (hda : parseDocActions p.actions = .ok da)
    (hca : parseCliActions cli.actions = .ok ca) :
    Even req.actions.length ∧
    (da ++ ca ≠ [] → req.actions = da ++ ca) ∧
    (p.card = none → req.actions = da ++ ca) ∧
    (da ++ ca = [] → ∀ c cr, p.card = some c → render_card c = .ok cr →
      req.actions = cardActionsFlatten cr.actions) := by
  obtain ⟨h0, da0, ca0, h3, h4, out, hd, hda0, hca0, hpc, hch, hcs,
    e1, e2, e3, e4, e5, e6, e7, e8, e9, e10, e11⟩ :=
    merge_request_ok_inversion cli p sb req hm
  rw [hda] at hda0
  simp only [Except.ok.injEq] at hda0
  subst hda0
  rw [hca] at hca0
  simp only [Except.ok.injEq] at hca0
  subst hca0
  have hlen : (da ++ ca).length = 2 * p.actions.length + 2 * cli.actions.length := by
    rw [List.length_append, parseDocActions_length _ _ hda, parseCliActions_length _ _ hca]
  cases hcard : p.card with
  | none =>
    rw [hcard, cardStage_none] at hcs
    simp only [Except.ok.injEq] at hcs
    subst hcs
    refine ⟨?_, fun _ => by rw [e6], fun _ => by rw [e6], ?_⟩
    · rw [e6]
      exact ⟨p.actions.length + cli.actions.length, by simp only [hlen]; ring⟩
    · intro hemp c cr hcc
      exact absurd hcc (by simp)
  | some c =>
    rw [hcard] at hcs
    obtain ⟨hbz, cr, hr, hout⟩ := cardStage_ok_some _ _ _ _ _ _ hcs
    subst hout
    refine ⟨?_, ?_, ?_, ?_⟩
    · rw [e6]
      by_cases hae : da ++ ca = ([] : List String)
      · rw [hae, if_pos rfl, cardActionsFlatten_length]
        exact ⟨cr.actions.length, by ring⟩
      · rw [if_neg hae, hlen]
        exact ⟨p.actions.length + cli.actions.length, by ring⟩
    · intro hne
      rw [e6]
      simp only [if_neg hne]
    · intro hnone
      exact absurd hnone (by simp)
    · intro hemp c2 cr2 hcc hr2
      simp only [Option.some.injEq] at hcc
      subst hcc
      rw [hr] at hr2
      simp only [Except.ok.injEq] at hr2
      subst hr2
      rw [e6, hemp, if_pos rfl]

/-- Witness for C9: two document actions then one CLI action, flattened in
order with even length. -/
theorem c9_witness :
    Even reqW9.actions.length ∧ reqW9.actions = ["a", "b", "c", "d", "e", "f"] := by
  have h := c9_actions_shape cliW9 pW9 none reqW9 ["a", "b", "c", "d"] ["e", "f"]
    (by rfl) (by rfl) (by rfl)
  exact ⟨h.1, h.2.1 (by decide)⟩

end Notify
